import Mathlib

/-!
Shallow embedding, over the real numbers, of the numerical core of the
Orbiter repository:

* `src/orbiter/core/propagation/TheKeplerProblem.py`
  (`stumpff_C`, `stumpff_S`, `universal_kepler`),
* `src/orbiter/core/time/UniversalTimeOfFlight.py` (`universal_time_of_flight`),
* `src/orbiter/core/states.py` (`StateRV.as_coe`, `ClassicalOE.as_rv`).

Conventions of the embedding:

* Machine floats are modelled as real numbers; `np.sqrt`, `np.log`,
  trigonometric and hyperbolic functions become their `Real` counterparts.
  Division by zero follows Lean's junk-value convention (`x / 0 = 0`),
  mirroring the fact that the Python code performs no division-by-zero
  checks of its own.
* `np.isclose(z, 0.0)` with numpy's default tolerances
  (`rtol = 1e-5`, `atol = 1e-8`) is the predicate `|z| ≤ 1e-8`.
* The `body`-name lookup path of the Python functions (which can only raise
  a `ValueError` before any computation) is omitted: all operations are
  embedded on their `mu`-supplied path, which is the path every claim uses.
* The Newton iteration of `universal_kepler` is embedded as fuel-based
  recursion whose fuel is the iteration cap, reproducing the
  `while abs(ratio) > tol and it < max_iter` loop exactly, including the
  fact that the Stumpff values used after the loop are the ones computed
  from the *pre-update* iterate of the final pass.
-/

noncomputable section

open Real

/-- A 3-vector of real numbers, the embedding of a numpy array of shape (3,). -/
structure Vec3 where
  x : ℝ
  y : ℝ
  z : ℝ

namespace Vec3

/-- Dot product, embedding `np.dot`. -/
def dot (a b : Vec3) : ℝ := a.x * b.x + a.y * b.y + a.z * b.z

/-- Cross product, embedding `np.cross`. -/
def cross (a b : Vec3) : Vec3 :=
  ⟨a.y * b.z - a.z * b.y, a.z * b.x - a.x * b.z, a.x * b.y - a.y * b.x⟩

/-- Euclidean norm, embedding `np.linalg.norm`. -/
def norm3 (a : Vec3) : ℝ := Real.sqrt (dot a a)

/-- Componentwise sum of two vectors. -/
def vadd (a b : Vec3) : Vec3 := ⟨a.x + b.x, a.y + b.y, a.z + b.z⟩

/-- Scalar multiple of a vector. -/
def smul3 (c : ℝ) (a : Vec3) : Vec3 := ⟨c * a.x, c * a.y, c * a.z⟩

/-- Componentwise division of a vector by a scalar. -/
def sdiv (a : Vec3) (c : ℝ) : Vec3 := ⟨a.x / c, a.y / c, a.z / c⟩

/-- The zero vector. -/
def zero : Vec3 := ⟨0, 0, 0⟩

theorem dot_nonneg (a : Vec3) : 0 ≤ dot a a := by
  unfold dot; nlinarith [sq_nonneg a.x, sq_nonneg a.y, sq_nonneg a.z]

theorem norm3_nonneg (a : Vec3) : 0 ≤ norm3 a := Real.sqrt_nonneg _

theorem norm3_sq (a : Vec3) : norm3 a ^ 2 = dot a a :=
  Real.sq_sqrt (dot_nonneg a)

/-- Lagrange's identity in dimension three: the squared norm of a cross
product complements the squared dot product. -/
theorem cross_dot_self (a b : Vec3) :
    dot (cross a b) (cross a b) = dot a a * dot b b - dot a b ^ 2 := by
  unfold dot cross; ring

/-- The cross product is orthogonal to its first factor. -/
theorem dot_cross_left (a b : Vec3) : dot (cross a b) a = 0 := by
  unfold dot cross; ring

/-- The cross product is orthogonal to its second factor. -/
theorem dot_cross_right (a b : Vec3) : dot (cross a b) b = 0 := by
  unfold dot cross; ring

end Vec3

open Vec3

/-- Embedding of `stumpff_C` from `TheKeplerProblem.py`: the special-cased
band is `np.isclose(z, 0.0)`, i.e. `|z| ≤ 1e-8`. -/
def stumpff_C (z : ℝ) : ℝ :=
  if |z| ≤ 1e-8 then 1 / 2
  else if 0 < z then (1 - Real.cos (Real.sqrt z)) / z
  else (1 - Real.cosh (Real.sqrt (-z))) / z

/-- Embedding of `stumpff_S` from `TheKeplerProblem.py`. -/
def stumpff_S (z : ℝ) : ℝ :=
  if |z| ≤ 1e-8 then 1 / 6
  else if 0 < z then (Real.sqrt z - Real.sin (Real.sqrt z)) / (z * Real.sqrt z)
  else (Real.sinh (Real.sqrt (-z)) - Real.sqrt (-z)) / (-z * Real.sqrt (-z))

/-- Embedding of `np.sign` on scalars. -/
def npSign (x : ℝ) : ℝ := if 0 < x then 1 else if x < 0 then -1 else 0

/-- The Newton residual `F(χ)` of `universal_kepler`
(`TheKeplerProblem.py`, line 102), as a function of the initial state,
the gravitational parameter, the target time of flight and the universal
anomaly `x`. -/
def keplerResidual (r0 v0 : Vec3) (mu dt x : ℝ) : ℝ :=
  let r0_norm := norm3 r0
  let vr0 := dot r0 v0 / r0_norm
  let alpha := 2 / r0_norm - dot v0 v0 / mu
  let z := alpha * x ^ 2
  (r0_norm * vr0 / Real.sqrt mu) * x ^ 2 * stumpff_C z
    + (1 - alpha * r0_norm) * x ^ 3 * stumpff_S z
    + r0_norm * x - Real.sqrt mu * dt

/-- The analytic derivative `dF/dχ` used by the Newton iteration
(`TheKeplerProblem.py`, line 103). -/
def keplerResidualDeriv (r0 v0 : Vec3) (mu x : ℝ) : ℝ :=
  let r0_norm := norm3 r0
  let vr0 := dot r0 v0 / r0_norm
  let alpha := 2 / r0_norm - dot v0 v0 / mu
  let z := alpha * x ^ 2
  (r0_norm * vr0 / Real.sqrt mu) * x * (1 - alpha * x ^ 2 * stumpff_S z)
    + (1 - alpha * r0_norm) * x ^ 2 * stumpff_C z + r0_norm

/-- The argument of the logarithm in the `alpha ≤ 0` branch of the initial
guess of `universal_kepler` (`TheKeplerProblem.py`, lines 89-92). -/
def seedLogArg (r0 v0 : Vec3) (mu dt : ℝ) : ℝ :=
  let r0_norm := norm3 r0
  let vr0 := dot r0 v0 / r0_norm
  let alpha := 2 / r0_norm - dot v0 v0 / mu
  (-2 * mu * alpha * dt) /
    (vr0 + npSign dt * Real.sqrt (-mu / alpha) * (1 - r0_norm * alpha))

/-- The initial guess for the universal anomaly
(`TheKeplerProblem.py`, lines 85-92). -/
def initialGuess (r0 v0 : Vec3) (mu dt : ℝ) : ℝ :=
  let r0_norm := norm3 r0
  let alpha := 2 / r0_norm - dot v0 v0 / mu
  if 0 < alpha then Real.sqrt mu * dt * alpha
  else npSign dt * Real.sqrt (-1 / alpha) * Real.log (seedLogArg r0 v0 mu dt)

/-- State of the Newton loop of `universal_kepler`: the current iterate `x`,
the Stumpff values computed during the most recent pass (`none` before the
first pass, mirroring that the Python locals `C`, `S` are unbound until the
loop body has run), the most recent Newton quotient `rat = F/dFdx`
(initialised to `1`), and the iteration counter `it`. -/
structure KeplerLoopSt where
  x : ℝ
  CS : Option (ℝ × ℝ)
  rat : ℝ
  it : ℕ

/-- One pass of the Newton loop body (`TheKeplerProblem.py`, lines 98-105). -/
def newtonStep (r0 v0 : Vec3) (mu dt : ℝ) (s : KeplerLoopSt) : KeplerLoopSt :=
  let r0_norm := norm3 r0
  let alpha := 2 / r0_norm - dot v0 v0 / mu
  let z := alpha * s.x ^ 2
  let C := stumpff_C z
  let S := stumpff_S z
  let F := keplerResidual r0 v0 mu dt s.x
  let dFdx := keplerResidualDeriv r0 v0 mu s.x
  let rat := F / dFdx
  ⟨s.x - rat, some (C, S), rat, s.it + 1⟩

/-- The `while abs(ratio) > tol and it < max_iter` loop, as fuel-based
recursion; run with fuel `max_iter` from `it = 0` this is exactly the
Python loop. -/
def newtonLoop (r0 v0 : Vec3) (mu dt tol : ℝ) (max_iter : ℕ) :
    ℕ → KeplerLoopSt → KeplerLoopSt
  | 0, s => s
  | fuel + 1, s =>
      if tol < |s.rat| ∧ s.it < max_iter then
        newtonLoop r0 v0 mu dt tol max_iter fuel (newtonStep r0 v0 mu dt s)
      else s

/-- The ways the `mu`-supplied path of `universal_kepler` can raise. -/
inductive KeplerError where
  | convergence : KeplerError
  | nameError : KeplerError
deriving DecidableEq

/-- Embedding of `universal_kepler` (`TheKeplerProblem.py`, lines 35-123) on
its `mu`-supplied path.  `KeplerError.convergence` is the `RuntimeError`
raised when the iteration cap is met; `KeplerError.nameError` is the
`NameError` Python would raise at line 112 when the loop body never ran and
the locals `C`, `S` are unbound. -/
def universal_kepler (r0 v0 : Vec3) (dt mu tol : ℝ) (max_iter : ℕ) :
    Except KeplerError (Vec3 × Vec3) :=
  let r0_norm := norm3 r0
  let alpha := 2 / r0_norm - dot v0 v0 / mu
  let x0 := initialGuess r0 v0 mu dt
  let fin := newtonLoop r0 v0 mu dt tol max_iter max_iter ⟨x0, none, 1, 0⟩
  if max_iter ≤ fin.it then .error .convergence
  else
    match fin.CS with
    | none => .error .nameError
    | some (C, S) =>
        let x := fin.x
        let z := alpha * x ^ 2
        let f := 1 - x ^ 2 * C / r0_norm
        let g := dt - 1 / Real.sqrt mu * x ^ 3 * S
        let r := vadd (smul3 f r0) (smul3 g v0)
        let r_norm := norm3 r
        let fdot := Real.sqrt mu / (r0_norm * r_norm) * x * (z * S - 1)
        let gdot := 1 - x ^ 2 * C / r_norm
        let v := vadd (smul3 fdot r0) (smul3 gdot v0)
        .ok (r, v)

/-- Embedding of `universal_time_of_flight`
(`UniversalTimeOfFlight.py`, lines 9-51) on its `mu`-supplied path. -/
def universal_time_of_flight (chi : ℝ) (r0 v0 : Vec3) (mu : ℝ) : ℝ :=
  let r0_norm := norm3 r0
  let vr0 := dot r0 v0 / r0_norm
  let alpha := 2 / r0_norm - dot v0 v0 / mu
  let z := alpha * chi ^ 2
  let C := stumpff_C z
  let S := stumpff_S z
  (r0_norm * vr0 / Real.sqrt mu) * chi ^ 2 * C
    + (1 - alpha * r0_norm) * chi ^ 3 * S
    + r0_norm * chi

/-- Embedding of `np.clip(x, lo, hi)` on scalars. -/
def npClip (x lo hi : ℝ) : ℝ := max lo (min hi x)

/-- Embedding of `np.arctanh`, the real inverse hyperbolic tangent:
`artanh x = log((1+x)/(1-x)) / 2`. -/
def artanh (x : ℝ) : ℝ := Real.log ((1 + x) / (1 - x)) / 2

/-- The inner helper `true_anomaly` of `time_of_flight_to_position`
(`TimeOfFlightToPosition.py`, lines 64-69), closed over the outer locals
`e_vec`, `h_vec` and `e`. -/
def true_anomaly (e_vec h_vec : Vec3) (e : ℝ) (r : Vec3) : ℝ :=
  let cosf := dot e_vec r / (e * norm3 r)
  let f := Real.arccos (npClip cosf (-1) 1)
  if dot (cross e_vec r) h_vec < 0 then 2 * π - f else f

/-- Embedding of `time_of_flight_to_position`
(`TimeOfFlightToPosition.py`, lines 20-91) on its `mu`-supplied path. -/
def time_of_flight_to_position (r0 v0 rf : Vec3) (mu : ℝ) : ℝ :=
  let r0_norm := norm3 r0
  let energy := dot v0 v0 / 2 - mu / r0_norm
  let h_vec := cross r0 v0
  let h := norm3 h_vec
  let p := h ^ 2 / mu
  let e_vec := vadd (sdiv (cross v0 h_vec) mu) (smul3 (-1) (sdiv r0 r0_norm))
  let e := norm3 e_vec
  let f0 := true_anomaly e_vec h_vec e r0
  let ff := true_anomaly e_vec h_vec e rf
  if |energy| < 1e-8 then
    let D0 := Real.tan (f0 / 2)
    let Df := Real.tan (ff / 2)
    1 / 2 * Real.sqrt (2 * p ^ 3 / mu) * ((Df + Df ^ 3 / 3) - (D0 + D0 ^ 3 / 3))
  else if energy < 0 then
    let a := -mu / (2 * energy)
    let E0 := 2 * Real.arctan (Real.sqrt ((1 - e) / (1 + e)) * Real.tan (f0 / 2))
    let Ef := 2 * Real.arctan (Real.sqrt ((1 - e) / (1 + e)) * Real.tan (ff / 2))
    let dt := Real.sqrt (a ^ 3 / mu)
      * ((Ef - E0) - e * (Real.sin Ef - Real.sin E0))
    if dt < 0 then dt + 2 * π * Real.sqrt (a ^ 3 / mu) else dt
  else
    let a := -mu / (2 * energy)
    let F0 := 2 * artanh (Real.sqrt ((e - 1) / (e + 1)) * Real.tan (f0 / 2))
    let Ff := 2 * artanh (Real.sqrt ((e - 1) / (e + 1)) * Real.tan (ff / 2))
    Real.sqrt ((-a) ^ 3 / mu) * (e * (Real.sinh Ff - Real.sinh F0) - (Ff - F0))

/-- The WGS-84 gravitational parameter hard-coded at module level in
`states.py` (`MU_EARTH = 3.986_004_418e14`, SI units). -/
def MU_EARTH : ℝ := 3.986004418e14

/-- The eccentricity vector `e_vec` as computed inside `StateRV.as_coe`
(`states.py`, line 29): `(v × h)/μ - r/|r|` with `h = r × v` and the module
constant `MU_EARTH`. -/
def evec (r v : Vec3) : Vec3 :=
  vadd (sdiv (cross v (cross r v)) MU_EARTH) (smul3 (-1) (sdiv r (norm3 r)))

theorem MU_EARTH_pos : (0 : ℝ) < MU_EARTH := by norm_num [MU_EARTH]

/-- The eccentricity vector lies in the orbital plane (it is orthogonal to
the angular momentum), identically as rational functions of the state. -/
theorem dot_cross_evec (r v : Vec3) : dot (cross r v) (evec r v) = 0 := by
  unfold evec vadd sdiv smul3 dot cross
  ring

/-- The node vector written out: `n = ẑ × h = (-h_y, h_x, 0)`. -/
theorem node_eq (h : Vec3) : cross ⟨0, 0, 1⟩ h = ⟨-h.y, h.x, 0⟩ := by
  unfold cross
  norm_num

/-- Embedding of `np.arctan2 y x`: the angle of the point `(x, y)` in
`(-π, π]`, with `arctan2 0 0 = 0`. -/
def arctan2 (y x : ℝ) : ℝ :=
  if 0 < x then Real.arctan (y / x)
  else if x < 0 then
    (if 0 ≤ y then Real.arctan (y / x) + π else Real.arctan (y / x) - π)
  else if 0 < y then π / 2
  else if y < 0 then -(π / 2)
  else 0

/-- Embedding of Python's `%` on reals (the result has the sign of the
divisor): `pymod a b = a - b * ⌊a / b⌋`. -/
def pymod (a b : ℝ) : ℝ := a - b * (⌊a / b⌋ : ℤ)

/-- Embedding of the dataclass `StateRV` of `states.py`. -/
structure StateRV where
  r : Vec3
  v : Vec3

/-- Embedding of the dataclass `ClassicalOE` of `states.py`. -/
structure ClassicalOE where
  a : ℝ
  e : ℝ
  i : ℝ
  raan : ℝ
  argp : ℝ
  nu : ℝ

/-- Embedding of `StateRV.as_coe` (`states.py`, lines 18-44).  The
gravitational parameter is the module constant `MU_EARTH`; the function
takes no `mu` argument. -/
def StateRV.as_coe (s : StateRV) : ClassicalOE :=
  let r_vec := s.r
  let v_vec := s.v
  let r_norm := norm3 r_vec
  let h_vec := cross r_vec v_vec
  let h_norm := norm3 h_vec
  let i := Real.arccos (h_vec.z / h_norm)
  let n_vec := cross ⟨0, 0, 1⟩ h_vec
  let n_norm := norm3 n_vec
  let raan := pymod (arctan2 n_vec.y n_vec.x) (2 * π)
  let e_vec := evec r_vec v_vec
  let e := norm3 e_vec
  let argp0 := if e ≠ 0 then Real.arccos (dot n_vec e_vec / (n_norm * e)) else 0
  let argp := if e_vec.z < 0 then 2 * π - argp0 else argp0
  let nu0 := Real.arccos (dot e_vec r_vec / (e * r_norm))
  let nu := if dot r_vec v_vec < 0 then 2 * π - nu0 else nu0
  let a := 1 / (2 / r_norm - norm3 v_vec ^ 2 / MU_EARTH)
  ⟨a, e, i, raan, argp, nu⟩

/-- Embedding of `ClassicalOE.as_rv` (`states.py`, lines 55-89). -/
def ClassicalOE.as_rv (oe : ClassicalOE) : StateRV :=
  let p := oe.a * (1 - oe.e ^ 2)
  let r_pqw : Vec3 :=
    ⟨p * Real.cos oe.nu / (1 + oe.e * Real.cos oe.nu),
     p * Real.sin oe.nu / (1 + oe.e * Real.cos oe.nu), 0⟩
  let v_pqw : Vec3 :=
    ⟨-Real.sqrt (MU_EARTH / p) * Real.sin oe.nu,
     Real.sqrt (MU_EARTH / p) * (oe.e + Real.cos oe.nu), 0⟩
  let cos_O := Real.cos oe.raan
  let sin_O := Real.sin oe.raan
  let cos_i := Real.cos oe.i
  let sin_i := Real.sin oe.i
  let cos_w := Real.cos oe.argp
  let sin_w := Real.sin oe.argp
  let row1 : Vec3 := ⟨cos_O * cos_w - sin_O * sin_w * cos_i,
                      -cos_O * sin_w - sin_O * cos_w * cos_i,
                      sin_O * sin_i⟩
  let row2 : Vec3 := ⟨sin_O * cos_w + cos_O * sin_w * cos_i,
                      -sin_O * sin_w + cos_O * cos_w * cos_i,
                      -cos_O * sin_i⟩
  let row3 : Vec3 := ⟨sin_w * sin_i, cos_w * sin_i, cos_i⟩
  let r_ijk : Vec3 := ⟨dot row1 r_pqw, dot row2 r_pqw, dot row3 r_pqw⟩
  let v_ijk : Vec3 := ⟨dot row1 v_pqw, dot row2 v_pqw, dot row3 v_pqw⟩
  ⟨r_ijk, v_ijk⟩

/-- C4, counterexample: the claim that `stumpff_C z = (1 - cos √z)/z` for
every `z > 0` fails at `z = 1e-9`: the code returns the series value `1/2`
for every `|z| ≤ 1e-8` (the `np.isclose` band), while the closed form at
`z = 1e-9` is strictly below `1/2`. -/
theorem C4_counterexample :
    (0 : ℝ) < 1e-9 ∧
      stumpff_C 1e-9 ≠ (1 - Real.cos (Real.sqrt 1e-9)) / 1e-9 := by
  constructor
  · norm_num
  · have hx : Real.sqrt 1e-9 ≠ 0 := by
      have : (0 : ℝ) < Real.sqrt 1e-9 := Real.sqrt_pos.2 (by norm_num)
      exact ne_of_gt this
    have hcos : 1 - Real.sqrt 1e-9 ^ 2 / 2 < Real.cos (Real.sqrt 1e-9) :=
      Real.one_sub_sq_div_two_lt_cos hx
    have hsq : Real.sqrt 1e-9 ^ 2 = 1e-9 := Real.sq_sqrt (by norm_num)
    rw [hsq] at hcos
    have habs : |(1e-9 : ℝ)| ≤ 1e-8 := by
      rw [abs_of_nonneg (by norm_num : (0 : ℝ) ≤ 1e-9)]; norm_num
    have hC : stumpff_C 1e-9 = 1 / 2 := by
      unfold stumpff_C
      rw [if_pos habs]
    rw [hC]
    intro h
    have : (1 - Real.cos (Real.sqrt 1e-9)) / 1e-9 < 1 / 2 := by
      rw [div_lt_iff₀ (by norm_num : (0:ℝ) < 1e-9)]
      linarith
    linarith [h ▸ this]

/-- C4, amended: `stumpff_C` and `stumpff_S` are total and return the
series-limit values `1/2` and `1/6` on the whole band `|z| ≤ 1e-8`
(numpy's `isclose(z, 0)` with default tolerances), not only at `z = 0`;
outside that band they satisfy the claimed trigonometric and hyperbolic
closed forms. -/
theorem C4_stumpff_piecewise (z : ℝ) :
    (|z| ≤ 1e-8 → stumpff_C z = 1 / 2 ∧ stumpff_S z = 1 / 6) ∧
      (1e-8 < |z| → 0 < z →
        stumpff_C z = (1 - Real.cos (Real.sqrt z)) / z ∧
          stumpff_S z = (Real.sqrt z - Real.sin (Real.sqrt z)) / (z * Real.sqrt z)) ∧
      (1e-8 < |z| → z < 0 →
        stumpff_C z = (1 - Real.cosh (Real.sqrt (-z))) / z ∧
          stumpff_S z = (Real.sinh (Real.sqrt (-z)) - Real.sqrt (-z)) / (-z * Real.sqrt (-z))) := by
  refine ⟨fun hband => ?_, fun hout hpos => ?_, fun hout hneg => ?_⟩
  · unfold stumpff_C stumpff_S
    rw [if_pos hband, if_pos hband]
    exact ⟨rfl, rfl⟩
  · unfold stumpff_C stumpff_S
    rw [if_neg (not_le.2 hout), if_neg (not_le.2 hout), if_pos hpos, if_pos hpos]
    exact ⟨rfl, rfl⟩
  · unfold stumpff_C stumpff_S
    rw [if_neg (not_le.2 hout), if_neg (not_le.2 hout),
      if_neg (not_lt.2 hneg.le), if_neg (not_lt.2 hneg.le)]
    exact ⟨rfl, rfl⟩

/-- C4, witness: the amended statement applied at the concrete points
`z = 0` (inside the band) and `z = 1` and `z = -1` (outside it). -/
theorem C4_witness :
    (stumpff_C 0 = 1 / 2 ∧ stumpff_S 0 = 1 / 6) ∧
      stumpff_C 1 = (1 - Real.cos (Real.sqrt 1)) / 1 ∧
      stumpff_C (-1) = (1 - Real.cosh (Real.sqrt 1)) / (-1) := by
  refine ⟨(C4_stumpff_piecewise 0).1 (by rw [abs_zero]; norm_num), ?_, ?_⟩
  · exact ((C4_stumpff_piecewise 1).2.1 (by rw [abs_one]; norm_num) (by norm_num)).1
  · have h := ((C4_stumpff_piecewise (-1)).2.2
      (by rw [abs_neg, abs_one]; norm_num) (by norm_num)).1
    simpa using h

theorem stumpff_C_zero : stumpff_C 0 = 1 / 2 := by
  unfold stumpff_C
  rw [if_pos (by rw [abs_zero]; norm_num : |(0:ℝ)| ≤ 1e-8)]

theorem stumpff_S_zero : stumpff_S 0 = 1 / 6 := by
  unfold stumpff_S
  rw [if_pos (by rw [abs_zero]; norm_num : |(0:ℝ)| ≤ 1e-8)]

theorem one_lt_sqrt_two : (1 : ℝ) < Real.sqrt 2 := by
  rw [show (1:ℝ) = Real.sqrt 1 from (Real.sqrt_one).symm]
  exact Real.sqrt_lt_sqrt (by norm_num) (by norm_num)

/-- C3: `universal_time_of_flight` is *not* the forward map of the Newton
residual of `universal_kepler`: it omits the final division by `√μ` (it
returns Battin's `√μ·Δt`, despite its docstring promising seconds).  At
`χ = 1`, `r0 = (1,0,0)`, `v0 = (0,2,0)`, `μ = 2` it returns `7/6`, and the
propagator's residual at `Δt = 7/6`, `χ = 1` is `7/6·(1 - √2) ≠ 0`. -/
theorem C3_tof_residual_bug :
    universal_time_of_flight 1 ⟨1, 0, 0⟩ ⟨0, 2, 0⟩ 2 = 7 / 6 ∧
      keplerResidual ⟨1, 0, 0⟩ ⟨0, 2, 0⟩ 2
        (universal_time_of_flight 1 ⟨1, 0, 0⟩ ⟨0, 2, 0⟩ 2) 1 ≠ 0 := by
  have htof : universal_time_of_flight 1 ⟨1, 0, 0⟩ ⟨0, 2, 0⟩ 2 = 7 / 6 := by
    unfold universal_time_of_flight norm3 dot
    norm_num
    rw [stumpff_S_zero]
    norm_num
  refine ⟨htof, ?_⟩
  rw [htof]
  unfold keplerResidual norm3 dot
  norm_num
  rw [stumpff_S_zero]
  intro h
  nlinarith [one_lt_sqrt_two]

theorem stumpff_C_neg {z : ℝ} (h : z < -(1e-8)) :
    stumpff_C z = (1 - Real.cosh (Real.sqrt (-z))) / z := by
  unfold stumpff_C
  rw [if_neg, if_neg]
  · exact not_lt.2 (le_of_lt (by linarith))
  · rw [abs_of_neg (by linarith)]
    intro hle
    linarith

theorem stumpff_S_neg {z : ℝ} (h : z < -(1e-8)) :
    stumpff_S z = (Real.sinh (Real.sqrt (-z)) - Real.sqrt (-z)) / (-z * Real.sqrt (-z)) := by
  unfold stumpff_S
  rw [if_neg, if_neg]
  · exact not_lt.2 (le_of_lt (by linarith))
  · rw [abs_of_neg (by linarith)]
    intro hle
    linarith

theorem c8k_seed : initialGuess ⟨0, 0, 0⟩ ⟨0, 0, 1⟩ 1 (1/2) = 0 := by
  unfold initialGuess seedLogArg npSign norm3 dot
  norm_num [Real.sqrt_zero, Real.sqrt_one, Real.log_one]

theorem c8k_step : newtonStep ⟨0, 0, 0⟩ ⟨0, 0, 1⟩ 1 (1/2) ⟨0, none, 1, 0⟩
    = ⟨0, some ((1:ℝ)/2, (1:ℝ)/6), 0, 1⟩ := by
  simp only [newtonStep, keplerResidual, keplerResidualDeriv]
  unfold norm3 dot
  norm_num [Real.sqrt_zero, Real.sqrt_one, stumpff_C_zero, stumpff_S_zero]

theorem c8k_loop :
    newtonLoop ⟨0, 0, 0⟩ ⟨0, 0, 1⟩ 1 (1/2) (1/2) 2 2
      ⟨initialGuess ⟨0, 0, 0⟩ ⟨0, 0, 1⟩ 1 (1/2), none, 1, 0⟩
    = ⟨0, some ((1:ℝ)/2, (1:ℝ)/6), 0, 1⟩ := by
  rw [c8k_seed]
  rw [show (2:ℕ) = 1 + 1 from rfl, newtonLoop]
  rw [if_pos ⟨by rw [abs_one]; norm_num, by norm_num⟩]
  rw [c8k_step]
  rw [show (1:ℕ) = 0 + 1 from rfl, newtonLoop]
  rw [if_neg]
  intro hcon
  have h1 := hcon.1
  rw [abs_zero] at h1
  linarith

theorem c8k_run : universal_kepler ⟨0, 0, 0⟩ ⟨0, 0, 1⟩ (1/2) 1 (1/2) 2
    = .ok (⟨0, 0, 1/2⟩, ⟨0, 0, 1⟩) := by
  simp only [universal_kepler, c8k_loop]
  rw [if_neg (by norm_num)]
  simp only [vadd, smul3, norm3, dot]
  norm_num [Real.sqrt_zero, Real.sqrt_one]


theorem c8t_run : time_of_flight_to_position ⟨0, 0, 0⟩ ⟨0, 0, 1⟩ ⟨0, 0, 0⟩ 1 = 0 := by
  unfold time_of_flight_to_position true_anomaly npClip
  unfold norm3 dot cross vadd sdiv smul3
  norm_num [Real.sqrt_zero, Real.sqrt_one, Real.arccos_zero]


/-- C8, counterexample: `universal_time_of_flight` performs no zero-norm
check: at the zero position vector it silently computes through the
degenerate arithmetic and *returns a value* (here `sinh 1 - 1`), instead of
failing fast with an invalid-input error as the claim states. -/
theorem C8_counterexample :
    universal_time_of_flight 1 ⟨0, 0, 0⟩ ⟨0, 0, 1⟩ 1 = Real.sinh 1 - 1 := by
  unfold universal_time_of_flight norm3 dot
  norm_num
  rw [stumpff_S_neg (by norm_num : (-1 : ℝ) < -(1e-8))]
  norm_num

/-- C8, amended: none of the four operations validates the position norm;
a zero-norm position is never rejected with an invalid-input error.  On a
zero-norm position, `universal_time_of_flight` returns the junk value
`χ³·S(-|v₀|²/μ·χ²)` and `StateRV.as_coe` returns the junk element set
`(-μ/|v|², 0, π/2, 0, 0, π/2)` (both for every velocity); `universal_kepler`
runs its Newton iteration on the degenerate arithmetic and returns a state
(at the zero-norm input shown it converges to the junk state
`r = (0,0,1/2)`, `v = (0,0,1)` instead of raising), and
`time_of_flight_to_position` computes through `e = h = 0` and returns the
junk value `0`.  No invalid-input failure path exists in any of them. -/
theorem C8_no_zero_norm_check (chi : ℝ) (v0 : Vec3) (mu : ℝ) :
    universal_time_of_flight chi ⟨0, 0, 0⟩ v0 mu
        = chi ^ 3 * stumpff_S (-(dot v0 v0) / mu * chi ^ 2) ∧
      StateRV.as_coe ⟨⟨0, 0, 0⟩, v0⟩
        = ⟨-(MU_EARTH / dot v0 v0), 0, π / 2, 0, 0, π / 2⟩ ∧
      universal_kepler ⟨0, 0, 0⟩ ⟨0, 0, 1⟩ (1/2) 1 (1/2) 2
        = .ok (⟨0, 0, 1/2⟩, ⟨0, 0, 1⟩) ∧
      time_of_flight_to_position ⟨0, 0, 0⟩ ⟨0, 0, 1⟩ ⟨0, 0, 0⟩ 1 = 0 := by
  refine ⟨?_, ?_, c8k_run, c8t_run⟩
  · unfold universal_time_of_flight norm3 dot
    simp
    ring_nf
    exact Or.inl trivial
  · unfold StateRV.as_coe evec norm3 dot cross sdiv smul3 vadd pymod arctan2
    simp [Real.arccos_zero, Real.sqrt_zero]
    have hnn : (0:ℝ) ≤ v0.x * v0.x + v0.y * v0.y + v0.z * v0.z := by
      nlinarith [mul_self_nonneg v0.x, mul_self_nonneg v0.y, mul_self_nonneg v0.z]
    rw [Real.sq_sqrt hnn, inv_neg, inv_div]

theorem sqrt_four : Real.sqrt 4 = 2 := by
  rw [show (4:ℝ) = 2 ^ 2 by norm_num, Real.sqrt_sq (by norm_num : (0:ℝ) ≤ 2)]

/-- C5, counterexample: at the exactly-parabolic state `r0 = (1,0,0)`,
`v0 = (1,1,0)`, `μ = 1` (so `α = 0 ≤ 0`), `Δt = 1`, the argument of the
logarithm in the `α ≤ 0` seed is `0`, not positive: the seed formula
divides by `α` and multiplies the numerator by `α`, so at the parabolic
boundary the claimed well-definedness fails (in floating point this branch
produces NaN). -/
theorem C5_counterexample :
    2 / norm3 ⟨1, 0, 0⟩ - dot ⟨1, 1, 0⟩ ⟨1, 1, 0⟩ / 1 = 0 ∧
      seedLogArg ⟨1, 0, 0⟩ ⟨1, 1, 0⟩ 1 1 = 0 ∧
      ¬ 0 < seedLogArg ⟨1, 0, 0⟩ ⟨1, 1, 0⟩ 1 1 := by
  have halpha : 2 / norm3 ⟨1, 0, 0⟩ - dot ⟨1, 1, 0⟩ ⟨1, 1, 0⟩ / 1 = 0 := by
    unfold norm3 dot
    norm_num
  have harg : seedLogArg ⟨1, 0, 0⟩ ⟨1, 1, 0⟩ 1 1 = 0 := by
    unfold seedLogArg norm3 dot
    norm_num
  exact ⟨halpha, harg, by rw [harg]; exact lt_irrefl 0⟩

/-- C5, amended: the seed is `√μ·Δt·α` for `α > 0` and the
`sign(Δt)`-branched logarithmic formula for `α ≤ 0`, exactly as claimed;
but the log argument is only guaranteed positive away from the parabolic
boundary — e.g. for `α < 0`, `Δt > 0` and non-negative radial velocity —
while at `α = 0` it degenerates to `0`. -/
theorem C5_initial_guess (r0 v0 : Vec3) (mu dt : ℝ) :
    (0 < 2 / norm3 r0 - dot v0 v0 / mu →
        initialGuess r0 v0 mu dt
          = Real.sqrt mu * dt * (2 / norm3 r0 - dot v0 v0 / mu)) ∧
      (2 / norm3 r0 - dot v0 v0 / mu ≤ 0 →
        initialGuess r0 v0 mu dt
          = npSign dt * Real.sqrt (-1 / (2 / norm3 r0 - dot v0 v0 / mu))
              * Real.log (seedLogArg r0 v0 mu dt)) ∧
      (2 / norm3 r0 - dot v0 v0 / mu < 0 → 0 < dt → 0 ≤ dot r0 v0 →
        0 < norm3 r0 → 0 < mu → 0 < seedLogArg r0 v0 mu dt) := by
  refine ⟨fun hpos => ?_, fun hnonpos => ?_, fun hneg hdt hvr hrn hmu => ?_⟩
  · unfold initialGuess
    rw [if_pos hpos]
  · unfold initialGuess
    rw [if_neg (not_lt.2 hnonpos)]
  · unfold seedLogArg
    have hsgn : npSign dt = 1 := by unfold npSign; rw [if_pos hdt]
    rw [hsgn]
    set rn := norm3 r0 with hrn_def
    set al := 2 / rn - dot v0 v0 / mu with hal_def
    have hnum : 0 < -2 * mu * al * dt := by
      nlinarith [mul_pos (mul_pos hmu (neg_pos.2 hneg)) hdt]
    have hsq : 0 < Real.sqrt (-mu / al) :=
      Real.sqrt_pos.2 (div_pos_iff.2 (Or.inr ⟨by linarith, hneg⟩))
    have hfac : 0 < 1 - rn * al := by nlinarith
    have hden : 0 < dot r0 v0 / rn + 1 * Real.sqrt (-mu / al) * (1 - rn * al) := by
      have h1 : 0 ≤ dot r0 v0 / rn := div_nonneg hvr hrn.le
      nlinarith [mul_pos hsq hfac]
    exact div_pos hnum hden

/-- C5, witness: the amended statement applied to the hyperbolic state
`r0 = (2,0,0)`, `v0 = (1,1,0)`, `μ = 1`, `Δt = 4` (`α = -1`). -/
theorem C5_witness : 0 < seedLogArg ⟨2, 0, 0⟩ ⟨1, 1, 0⟩ 1 4 := by
  have hn : norm3 ⟨2, 0, 0⟩ = 2 := by
    unfold norm3 dot; norm_num [sqrt_four]
  refine (C5_initial_guess ⟨2, 0, 0⟩ ⟨1, 1, 0⟩ 1 4).2.2 ?_ (by norm_num) ?_ ?_ (by norm_num)
  · rw [hn]; unfold dot; norm_num
  · unfold dot; norm_num
  · rw [hn]; norm_num

/-- The loop counter grows by at most the available fuel. -/
theorem newtonLoop_it_le (r0 v0 : Vec3) (mu dt tol : ℝ) (max_iter : ℕ) :
    ∀ (fuel : ℕ) (s : KeplerLoopSt),
      (newtonLoop r0 v0 mu dt tol max_iter fuel s).it ≤ s.it + fuel := by
  intro fuel
  induction fuel with
  | zero => intro s; simp [newtonLoop]
  | succ n ih =>
      intro s
      rw [newtonLoop]
      by_cases hg : tol < |s.rat| ∧ s.it < max_iter
      · rw [if_pos hg]
        have := ih (newtonStep r0 v0 mu dt s)
        have hstep : (newtonStep r0 v0 mu dt s).it = s.it + 1 := rfl
        omega
      · rw [if_neg hg]; omega

/-- On exit, either the loop guard is false or all fuel was consumed. -/
theorem newtonLoop_exit (r0 v0 : Vec3) (mu dt tol : ℝ) (max_iter : ℕ) :
    ∀ (fuel : ℕ) (s : KeplerLoopSt),
      ¬ (tol < |(newtonLoop r0 v0 mu dt tol max_iter fuel s).rat| ∧
           (newtonLoop r0 v0 mu dt tol max_iter fuel s).it < max_iter) ∨
        (newtonLoop r0 v0 mu dt tol max_iter fuel s).it = s.it + fuel := by
  intro fuel
  induction fuel with
  | zero => intro s; right; simp [newtonLoop]
  | succ n ih =>
      intro s
      rw [newtonLoop]
      by_cases hg : tol < |s.rat| ∧ s.it < max_iter
      · rw [if_pos hg]
        rcases ih (newtonStep r0 v0 mu dt s) with h | h
        · exact Or.inl h
        · right
          have hstep : (newtonStep r0 v0 mu dt s).it = s.it + 1 := rfl
          omega
      · rw [if_neg hg]; exact Or.inl hg

/-- C10: the post-loop check `if it >= max_iter: raise` fires whenever the
loop consumed exactly `max_iter` iterations, even if the final update was
converged; hence a returned state always used strictly fewer than
`max_iter` iterations, and `max_iter = 0` always raises. -/
theorem C10_cap_check_is_inclusive :
    (∀ (r0 v0 : Vec3) (dt mu tol : ℝ),
        universal_kepler r0 v0 dt mu tol 0 = .error .convergence) ∧
      (∀ (r0 v0 : Vec3) (dt mu tol : ℝ) (max_iter : ℕ),
        (newtonLoop r0 v0 mu dt tol max_iter max_iter
            ⟨initialGuess r0 v0 mu dt, none, 1, 0⟩).it = max_iter →
        universal_kepler r0 v0 dt mu tol max_iter = .error .convergence) ∧
      (∀ (r0 v0 : Vec3) (dt mu tol : ℝ) (max_iter : ℕ) (rv : Vec3 × Vec3),
        universal_kepler r0 v0 dt mu tol max_iter = .ok rv →
        (newtonLoop r0 v0 mu dt tol max_iter max_iter
            ⟨initialGuess r0 v0 mu dt, none, 1, 0⟩).it < max_iter) := by
  refine ⟨fun r0 v0 dt mu tol => ?_, fun r0 v0 dt mu tol max_iter h => ?_,
    fun r0 v0 dt mu tol max_iter rv h => ?_⟩
  · simp [universal_kepler, newtonLoop]
  · simp only [universal_kepler]
    rw [if_pos (le_of_eq h.symm)]
  · by_contra hlt
    push_neg at hlt
    simp only [universal_kepler] at h
    rw [if_pos hlt] at h
    exact absurd h (by simp)

/-- C10, witness: with `max_iter = 0` the loop runs zero iterations (so its
counter equals the cap) and the call raises the convergence error, at the
concrete input `r0 = (1,0,0)`, `v0 = (0,2,0)`, `Δt = 1`, `μ = 2`. -/
theorem C10_witness :
    universal_kepler ⟨1, 0, 0⟩ ⟨0, 2, 0⟩ 1 2 1e-8 0 = .error .convergence :=
  C10_cap_check_is_inclusive.2.1 ⟨1, 0, 0⟩ ⟨0, 2, 0⟩ 1 2 1e-8 0 rfl

/-- C7: a state is returned only when the last Newton quotient satisfied
the tolerance (no unconverged value is ever returned silently), and any
call with `max_iter = 1` and an entered loop whose first quotient still
misses the tolerance ends in the convergence error. -/
theorem C7_no_silent_nonconvergence :
    (∀ (r0 v0 : Vec3) (dt mu tol : ℝ) (max_iter : ℕ) (rv : Vec3 × Vec3),
        universal_kepler r0 v0 dt mu tol max_iter = .ok rv →
        |(newtonLoop r0 v0 mu dt tol max_iter max_iter
            ⟨initialGuess r0 v0 mu dt, none, 1, 0⟩).rat| ≤ tol) ∧
      (∀ (r0 v0 : Vec3) (dt mu tol : ℝ),
        tol < 1 →
        tol ≤ |(newtonStep r0 v0 mu dt ⟨initialGuess r0 v0 mu dt, none, 1, 0⟩).rat| →
        universal_kepler r0 v0 dt mu tol 1 = .error .convergence) := by
  constructor
  · intro r0 v0 dt mu tol max_iter rv h
    have hlt : (newtonLoop r0 v0 mu dt tol max_iter max_iter
        ⟨initialGuess r0 v0 mu dt, none, 1, 0⟩).it < max_iter := by
      by_contra hge
      push_neg at hge
      simp only [universal_kepler] at h
      rw [if_pos hge] at h
      exact absurd h (by simp)
    rcases newtonLoop_exit r0 v0 mu dt tol max_iter max_iter
        ⟨initialGuess r0 v0 mu dt, none, 1, 0⟩ with hng | hit
    · push_neg at hng
      exact not_lt.1 fun habs => absurd hlt (by simpa using (hng habs).not_lt)
    · omega
  · intro r0 v0 dt mu tol htol _
    have hloop : newtonLoop r0 v0 mu dt tol 1 1 ⟨initialGuess r0 v0 mu dt, none, 1, 0⟩
        = newtonStep r0 v0 mu dt ⟨initialGuess r0 v0 mu dt, none, 1, 0⟩ := by
      rw [newtonLoop, if_pos ⟨by rw [abs_one]; exact htol, Nat.zero_lt_one⟩]
      rfl
    simp only [universal_kepler, hloop]
    have hstep : (newtonStep r0 v0 mu dt
        ⟨initialGuess r0 v0 mu dt, none, 1, 0⟩).it = 1 := rfl
    rw [if_pos (le_of_eq hstep.symm)]

/-- The seed vanishes for the concrete parabolic input used below. -/
theorem initialGuess_parab : initialGuess ⟨1, 0, 0⟩ ⟨0, 2, 0⟩ 2 1 = 0 := by
  unfold initialGuess norm3 dot
  norm_num

/-- First Newton quotient for the concrete parabolic input used below. -/
theorem newtonStep_parab :
    (newtonStep ⟨1, 0, 0⟩ ⟨0, 2, 0⟩ 2 1
        ⟨initialGuess ⟨1, 0, 0⟩ ⟨0, 2, 0⟩ 2 1, none, 1, 0⟩).rat = -Real.sqrt 2 := by
  have hF : keplerResidual ⟨1, 0, 0⟩ ⟨0, 2, 0⟩ 2 1 0 = -Real.sqrt 2 := by
    unfold keplerResidual norm3 dot
    norm_num
  have hD : keplerResidualDeriv ⟨1, 0, 0⟩ ⟨0, 2, 0⟩ 2 0 = 1 := by
    unfold keplerResidualDeriv norm3 dot
    norm_num
  show keplerResidual ⟨1, 0, 0⟩ ⟨0, 2, 0⟩ 2 1 (initialGuess ⟨1, 0, 0⟩ ⟨0, 2, 0⟩ 2 1)
      / keplerResidualDeriv ⟨1, 0, 0⟩ ⟨0, 2, 0⟩ 2 (initialGuess ⟨1, 0, 0⟩ ⟨0, 2, 0⟩ 2 1)
      = -Real.sqrt 2
  rw [initialGuess_parab, hF, hD, div_one]

/-- C7, witness: the non-convergence conjunct applied to the concrete
parabolic input `r0 = (1,0,0)`, `v0 = (0,2,0)`, `Δt = 1`, `μ = 2` with
`tol = 1e-8` and `max_iter = 1`, whose first Newton quotient is `-√2`. -/
theorem C7_witness :
    universal_kepler ⟨1, 0, 0⟩ ⟨0, 2, 0⟩ 1 2 1e-8 1 = .error .convergence := by
  refine C7_no_silent_nonconvergence.2 ⟨1, 0, 0⟩ ⟨0, 2, 0⟩ 1 2 1e-8 (by norm_num) ?_
  rw [newtonStep_parab, abs_neg, abs_of_nonneg (Real.sqrt_nonneg 2)]
  nlinarith [one_lt_sqrt_two]

theorem exp_log_two : Real.exp (Real.log 2) = 2 := Real.exp_log (by norm_num)

theorem cosh_log_two : Real.cosh (Real.log 2) = 5 / 4 := by
  rw [Real.cosh_eq, Real.exp_neg, exp_log_two]; norm_num

theorem sinh_log_two : Real.sinh (Real.log 2) = 3 / 4 := by
  rw [Real.sinh_eq, Real.exp_neg, exp_log_two]; norm_num

theorem exp_two_log_two : Real.exp (2 * Real.log 2) = 4 := by
  rw [two_mul, Real.exp_add, exp_log_two]; norm_num

theorem cosh_two_log_two : Real.cosh (2 * Real.log 2) = 17 / 8 := by
  rw [Real.cosh_eq, Real.exp_neg, exp_two_log_two]; norm_num

theorem sinh_two_log_two : Real.sinh (2 * Real.log 2) = 15 / 8 := by
  rw [Real.sinh_eq, Real.exp_neg, exp_two_log_two]; norm_num

theorem stumpff_C_at_neg_sq {t : ℝ} (h0 : 0 < t) (h : 1e-8 < t ^ 2) :
    stumpff_C (-(t ^ 2)) = (Real.cosh t - 1) / t ^ 2 := by
  rw [stumpff_C_neg (by linarith : -(t ^ 2) < -(1e-8)), neg_neg, Real.sqrt_sq h0.le]
  rw [div_neg, ← neg_div]
  ring_nf

theorem stumpff_S_at_neg_sq {t : ℝ} (h0 : 0 < t) (h : 1e-8 < t ^ 2) :
    stumpff_S (-(t ^ 2)) = (Real.sinh t - t) / (t ^ 2 * t) := by
  rw [stumpff_S_neg (by linarith : -(t ^ 2) < -(1e-8)), neg_neg, Real.sqrt_sq h0.le]

theorem c6_norm_r0 : norm3 ⟨1, 0, 0⟩ = 1 := by
  unfold norm3 dot; norm_num

theorem c6_dot_rv : dot ⟨1, 0, 0⟩ ⟨-(2/3), Real.sqrt 23 / 3, 0⟩ = -(2/3) := by
  unfold dot; norm_num

theorem c6_dot_vv : dot ⟨-(2/3), Real.sqrt 23 / 3, 0⟩ ⟨-(2/3), Real.sqrt 23 / 3, 0⟩ = 3 := by
  unfold dot
  have h23 : Real.sqrt 23 * Real.sqrt 23 = 23 := Real.mul_self_sqrt (by norm_num)
  nlinarith [h23]

theorem c6_alpha :
    2 / norm3 ⟨1, 0, 0⟩ - dot ⟨-(2/3), Real.sqrt 23 / 3, 0⟩ ⟨-(2/3), Real.sqrt 23 / 3, 0⟩ / 1
      = -1 := by
  rw [c6_norm_r0, c6_dot_vv]; norm_num

theorem c6_seed_arg : seedLogArg ⟨1, 0, 0⟩ ⟨-(2/3), Real.sqrt 23 / 3, 0⟩ 1 (4/3) = 2 := by
  simp only [seedLogArg]
  rw [c6_alpha, c6_norm_r0, c6_dot_rv]
  unfold npSign
  norm_num

theorem c6_x0 : initialGuess ⟨1, 0, 0⟩ ⟨-(2/3), Real.sqrt 23 / 3, 0⟩ 1 (4/3) = Real.log 2 := by
  simp only [initialGuess]
  rw [c6_alpha, c6_seed_arg]
  unfold npSign
  norm_num

theorem log_two_pos : 0 < Real.log 2 := Real.log_pos (by norm_num)

theorem log_two_sq_large : 1e-8 < Real.log 2 ^ 2 := by
  nlinarith [Real.log_two_gt_d9]

theorem c6_F : keplerResidual ⟨1, 0, 0⟩ ⟨-(2/3), Real.sqrt 23 / 3, 0⟩ 1 (4/3) (Real.log 2)
    = -Real.log 2 := by
  simp only [keplerResidual]
  rw [c6_alpha, c6_norm_r0, c6_dot_rv, neg_one_mul,
    stumpff_C_at_neg_sq log_two_pos log_two_sq_large,
    stumpff_S_at_neg_sq log_two_pos log_two_sq_large,
    cosh_log_two, sinh_log_two, Real.sqrt_one]
  field_simp
  ring

theorem c6_dF : keplerResidualDeriv ⟨1, 0, 0⟩ ⟨-(2/3), Real.sqrt 23 / 3, 0⟩ 1 (Real.log 2)
    = 1 := by
  simp only [keplerResidualDeriv]
  rw [c6_alpha, c6_norm_r0, c6_dot_rv, neg_one_mul,
    stumpff_C_at_neg_sq log_two_pos log_two_sq_large,
    stumpff_S_at_neg_sq log_two_pos log_two_sq_large,
    cosh_log_two, sinh_log_two, Real.sqrt_one]
  field_simp
  ring

theorem c6_step : newtonStep ⟨1, 0, 0⟩ ⟨-(2/3), Real.sqrt 23 / 3, 0⟩ 1 (4/3)
    ⟨Real.log 2, none, 1, 0⟩
    = ⟨2 * Real.log 2,
        some ((1:ℝ)/4 / Real.log 2 ^ 2,
          (3/4 - Real.log 2) / (Real.log 2 ^ 2 * Real.log 2)),
        -Real.log 2, 1⟩ := by
  simp only [newtonStep]
  rw [c6_alpha, neg_one_mul, stumpff_C_at_neg_sq log_two_pos log_two_sq_large,
    stumpff_S_at_neg_sq log_two_pos log_two_sq_large,
    cosh_log_two, sinh_log_two, c6_F, c6_dF]
  norm_num
  ring

theorem c6_loop :
    newtonLoop ⟨1, 0, 0⟩ ⟨-(2/3), Real.sqrt 23 / 3, 0⟩ 1 (4/3) (7/10) 1000 1000
      ⟨initialGuess ⟨1, 0, 0⟩ ⟨-(2/3), Real.sqrt 23 / 3, 0⟩ 1 (4/3), none, 1, 0⟩
    = ⟨2 * Real.log 2,
        some ((1:ℝ)/4 / Real.log 2 ^ 2,
          (3/4 - Real.log 2) / (Real.log 2 ^ 2 * Real.log 2)),
        -Real.log 2, 1⟩ := by
  rw [c6_x0]
  rw [show (1000:ℕ) = 999 + 1 from rfl, newtonLoop]
  rw [if_pos ⟨by rw [abs_one]; norm_num, by norm_num⟩]
  rw [c6_step]
  rw [show (999:ℕ) = 998 + 1 from rfl, newtonLoop]
  rw [if_neg]
  intro hcon
  have h1 := hcon.1
  rw [abs_neg, abs_of_pos log_two_pos] at h1
  linarith [Real.log_two_lt_d9]

/-- C6: the Lagrange coefficients are *not* built from Stumpff values at the
converged anomaly.  For `r0 = (1,0,0)`, `v0 = (-2/3, √23/3, 0)`, `μ = 1`,
`Δt = 4/3`, `tol = 7/10` the Newton loop converges after one pass from the
seed `χ₀ = log 2` to `χ = 2·log 2`, but the returned position reuses `C`, `S`
evaluated at the pre-update iterate `χ₀` (the loop recomputes `z` after the
loop but not `C` and `S`); its x-coordinate `28/9 - 16/3·log 2` differs from
the claim's formula evaluated with `C`, `S` at the converged `χ`. -/
theorem C6_stale_stumpff_values :
    ∃ rv : Vec3 × Vec3,
      universal_kepler ⟨1, 0, 0⟩ ⟨-(2/3), Real.sqrt 23 / 3, 0⟩ (4/3) 1 (7/10) 1000 = .ok rv
        ∧ rv.1.x = 28/9 - 16/3 * Real.log 2
        ∧ (1 - (2 * Real.log 2) ^ 2 * stumpff_C (-(2 * Real.log 2) ^ 2) / norm3 ⟨1, 0, 0⟩) * 1
            + (4/3 - 1 / Real.sqrt 1 * (2 * Real.log 2) ^ 3
                * stumpff_S (-(2 * Real.log 2) ^ 2)) * (-(2/3))
            ≠ rv.1.x := by
  have hL := log_two_pos
  have hLne : Real.log 2 ≠ 0 := ne_of_gt hL
  obtain ⟨rv, hrv⟩ : ∃ rv, universal_kepler ⟨1, 0, 0⟩ ⟨-(2/3), Real.sqrt 23 / 3, 0⟩
      (4/3) 1 (7/10) 1000 = .ok rv := by
    simp only [universal_kepler, c6_loop]
    rw [if_neg (by norm_num)]
    exact ⟨_, rfl⟩
  have hx : rv.1.x = 28/9 - 16/3 * Real.log 2 := by
    have h2 := hrv
    simp only [universal_kepler, c6_loop] at h2
    rw [if_neg (by norm_num)] at h2
    have hpair := Except.ok.inj h2
    rw [← hpair]
    simp only [vadd, smul3]
    rw [c6_norm_r0, Real.sqrt_one]
    field_simp
    ring
  refine ⟨rv, hrv, hx, ?_⟩
  have h2L : 0 < 2 * Real.log 2 := by linarith
  have h2Lsq : (1e-8 : ℝ) < (2 * Real.log 2) ^ 2 := by nlinarith [Real.log_two_gt_d9]
  have hspec : (1 - (2 * Real.log 2) ^ 2 * stumpff_C (-(2 * Real.log 2) ^ 2) / norm3 ⟨1, 0, 0⟩) * 1
      + (4/3 - 1 / Real.sqrt 1 * (2 * Real.log 2) ^ 3
          * stumpff_S (-(2 * Real.log 2) ^ 2)) * (-(2/3))
      = 17/72 - 4/3 * Real.log 2 := by
    rw [stumpff_C_at_neg_sq h2L h2Lsq, stumpff_S_at_neg_sq h2L h2Lsq,
      cosh_two_log_two, sinh_two_log_two, c6_norm_r0, Real.sqrt_one]
    field_simp
    ring
  rw [hspec, hx]
  intro heq
  linarith [Real.log_two_lt_d9]

theorem cos_arctan_div_pos {y x : ℝ} (hx : 0 < x) :
    Real.cos (Real.arctan (y / x)) = x / Real.sqrt (x ^ 2 + y ^ 2) := by
  rw [Real.cos_arctan]
  have h1 : 1 + (y / x) ^ 2 = (x ^ 2 + y ^ 2) / x ^ 2 := by field_simp
  rw [h1, Real.sqrt_div (by positivity) (x ^ 2), Real.sqrt_sq hx.le]
  rw [div_div_eq_mul_div, one_mul]

theorem sin_arctan_div_pos {y x : ℝ} (hx : 0 < x) :
    Real.sin (Real.arctan (y / x)) = y / Real.sqrt (x ^ 2 + y ^ 2) := by
  rw [Real.sin_arctan]
  have h1 : 1 + (y / x) ^ 2 = (x ^ 2 + y ^ 2) / x ^ 2 := by field_simp
  rw [h1, Real.sqrt_div (by positivity) (x ^ 2), Real.sqrt_sq hx.le]
  have hs : Real.sqrt (x ^ 2 + y ^ 2) ≠ 0 := by
    have : (0:ℝ) < x ^ 2 + y ^ 2 := by nlinarith [sq_nonneg y, pow_pos hx 2]
    positivity
  field_simp

theorem cos_arctan_div_neg {y x : ℝ} (hx : x < 0) :
    Real.cos (Real.arctan (y / x)) = -x / Real.sqrt (x ^ 2 + y ^ 2) := by
  rw [Real.cos_arctan]
  have h1 : 1 + (y / x) ^ 2 = (x ^ 2 + y ^ 2) / x ^ 2 := by
    field_simp [hx.ne]
  rw [h1, Real.sqrt_div (by positivity) (x ^ 2), Real.sqrt_sq_eq_abs, abs_of_neg hx]
  rw [div_div_eq_mul_div, one_mul]

theorem sin_arctan_div_neg {y x : ℝ} (hx : x < 0) :
    Real.sin (Real.arctan (y / x)) = -y / Real.sqrt (x ^ 2 + y ^ 2) := by
  rw [Real.sin_arctan]
  have h1 : 1 + (y / x) ^ 2 = (x ^ 2 + y ^ 2) / x ^ 2 := by
    field_simp [hx.ne]
  rw [h1, Real.sqrt_div (by positivity) (x ^ 2), Real.sqrt_sq_eq_abs, abs_of_neg hx]
  have hyx : y / x * -x = -y := by field_simp [hx.ne]
  rw [div_div_eq_mul_div, hyx]

theorem cos_arctan2 (y x : ℝ) (hxy : x ≠ 0 ∨ y ≠ 0) :
    Real.cos (arctan2 y x) = x / Real.sqrt (x ^ 2 + y ^ 2) := by
  unfold arctan2
  rcases lt_trichotomy x 0 with hx | hx | hx
  · rw [if_neg (by linarith : ¬ 0 < x), if_pos hx]
    by_cases hy : 0 ≤ y
    · rw [if_pos hy, Real.cos_add, Real.cos_pi, Real.sin_pi, cos_arctan_div_neg hx]
      ring
    · rw [if_neg hy, Real.cos_sub, Real.cos_pi, Real.sin_pi, cos_arctan_div_neg hx]
      ring
  · subst hx
    have hy : y ≠ 0 := hxy.resolve_left (by simp)
    rw [if_neg (by norm_num), if_neg (by norm_num)]
    rcases lt_trichotomy y 0 with hy2 | hy2 | hy2
    · rw [if_neg (by linarith : ¬ 0 < y), if_pos hy2, Real.cos_neg, Real.cos_pi_div_two]
      norm_num
    · exact absurd hy2 hy
    · rw [if_pos hy2, Real.cos_pi_div_two]
      norm_num
  · rw [if_pos hx, cos_arctan_div_pos hx]

theorem sin_arctan2 (y x : ℝ) (hxy : x ≠ 0 ∨ y ≠ 0) :
    Real.sin (arctan2 y x) = y / Real.sqrt (x ^ 2 + y ^ 2) := by
  unfold arctan2
  rcases lt_trichotomy x 0 with hx | hx | hx
  · rw [if_neg (by linarith : ¬ 0 < x), if_pos hx]
    by_cases hy : 0 ≤ y
    · rw [if_pos hy, Real.sin_add, Real.cos_pi, Real.sin_pi, sin_arctan_div_neg hx]
      ring
    · rw [if_neg hy, Real.sin_sub, Real.cos_pi, Real.sin_pi, sin_arctan_div_neg hx]
      ring
  · subst hx
    have hy : y ≠ 0 := hxy.resolve_left (by simp)
    rcases lt_trichotomy y 0 with hy2 | hy2 | hy2
    · rw [if_neg (by norm_num), if_neg (by norm_num),
        if_neg (by linarith : ¬ 0 < y), if_pos hy2, Real.sin_neg, Real.sin_pi_div_two]
      rw [show (0:ℝ) ^ 2 + y ^ 2 = y ^ 2 by ring, Real.sqrt_sq_eq_abs, abs_of_neg hy2]
      field_simp
    · exact absurd hy2 hy
    · rw [if_neg (by norm_num), if_neg (by norm_num), if_pos hy2, Real.sin_pi_div_two]
      rw [show (0:ℝ) ^ 2 + y ^ 2 = y ^ 2 by ring, Real.sqrt_sq_eq_abs, abs_of_pos hy2]
      rw [div_self hy]
  · rw [if_pos hx, sin_arctan_div_pos hx]

theorem cos_pymod_two_pi (x : ℝ) : Real.cos (pymod x (2 * π)) = Real.cos x := by
  unfold pymod
  rw [mul_comm (2 * π) ((⌊x / (2 * π)⌋ : ℤ) : ℝ)]
  exact Real.cos_sub_int_mul_two_pi x ⌊x / (2 * π)⌋

theorem sin_pymod_two_pi (x : ℝ) : Real.sin (pymod x (2 * π)) = Real.sin x := by
  unfold pymod
  rw [mul_comm (2 * π) ((⌊x / (2 * π)⌋ : ℤ) : ℝ)]
  exact Real.sin_sub_int_mul_two_pi x ⌊x / (2 * π)⌋

theorem col1x (h e : Vec3) (nn hn es : ℝ)
    (hnn2 : nn ^ 2 = h.x ^ 2 + h.y ^ 2)
    (hhe : dot h e = 0)
    (hnn : nn ≠ 0) (hhn : hn ≠ 0) (hes : es ≠ 0) :
    (-h.y / nn) * ((-h.y * e.x + h.x * e.y) / (nn * es))
      - (h.x / nn) * (e.z * hn / (nn * es)) * (h.z / hn) = e.x / es := by
  have hhe' : h.x * e.x + h.y * e.y + h.z * e.z = 0 := hhe
  field_simp
  linear_combination (-h.x * hn * nn ^ 2 * es ^ 2) * hhe' + (-e.x * hn * nn ^ 2 * es ^ 2) * hnn2

theorem col1y (h e : Vec3) (nn hn es : ℝ)
    (hnn2 : nn ^ 2 = h.x ^ 2 + h.y ^ 2)
    (hhe : dot h e = 0)
    (hnn : nn ≠ 0) (hhn : hn ≠ 0) (hes : es ≠ 0) :
    (h.x / nn) * ((-h.y * e.x + h.x * e.y) / (nn * es))
      + (-h.y / nn) * (e.z * hn / (nn * es)) * (h.z / hn) = e.y / es := by
  have hhe' : h.x * e.x + h.y * e.y + h.z * e.z = 0 := hhe
  field_simp
  linear_combination (-h.y * hn * nn ^ 2 * es ^ 2) * hhe' + (-e.y * hn * nn ^ 2 * es ^ 2) * hnn2

theorem col1z (_u e : Vec3) (nn hn es : ℝ)
    (hnn : nn ≠ 0) (hhn : hn ≠ 0) (hes : es ≠ 0) :
    (e.z * hn / (nn * es)) * (nn / hn) = e.z / es := by
  field_simp
  ring

theorem col2x (h e : Vec3) (nn hn es : ℝ)
    (hnn2 : nn ^ 2 = h.x ^ 2 + h.y ^ 2) (hhn2 : hn ^ 2 = dot h h)
    (hhe : dot h e = 0)
    (hnn : nn ≠ 0) (hhn : hn ≠ 0) (hes : es ≠ 0) :
    -(-h.y / nn) * (e.z * hn / (nn * es))
      - (h.x / nn) * ((-h.y * e.x + h.x * e.y) / (nn * es)) * (h.z / hn)
      = (cross h e).x / (hn * es) := by
  have hhe' : h.x * e.x + h.y * e.y + h.z * e.z = 0 := hhe
  have hhn2' : hn ^ 2 = h.x * h.x + h.y * h.y + h.z * h.z := hhn2
  have key : h.y * e.z * hn ^ 2 - h.x * h.z * (-h.y * e.x + h.x * e.y)
      = nn ^ 2 * (h.y * e.z - h.z * e.y) := by
    linear_combination (h.z * h.y) * hhe' + (h.y * e.z) * hhn2'
      + (-(h.y * e.z - h.z * e.y)) * hnn2
  have lhs_eq : -(-h.y / nn) * (e.z * hn / (nn * es))
      - (h.x / nn) * ((-h.y * e.x + h.x * e.y) / (nn * es)) * (h.z / hn)
      = (h.y * e.z * hn ^ 2 - h.x * h.z * (-h.y * e.x + h.x * e.y))
          / (nn ^ 2 * es * hn) := by
    field_simp
    ring
  rw [lhs_eq, key]
  unfold cross
  field_simp
  ring

theorem col2y (h e : Vec3) (nn hn es : ℝ)
    (hnn2 : nn ^ 2 = h.x ^ 2 + h.y ^ 2) (hhn2 : hn ^ 2 = dot h h)
    (hhe : dot h e = 0)
    (hnn : nn ≠ 0) (hhn : hn ≠ 0) (hes : es ≠ 0) :
    -(h.x / nn) * (e.z * hn / (nn * es))
      + (-h.y / nn) * ((-h.y * e.x + h.x * e.y) / (nn * es)) * (h.z / hn)
      = (cross h e).y / (hn * es) := by
  have hhe' : h.x * e.x + h.y * e.y + h.z * e.z = 0 := hhe
  have hhn2' : hn ^ 2 = h.x * h.x + h.y * h.y + h.z * h.z := hhn2
  have key : -(h.x * e.z * hn ^ 2) + h.z * (-h.y) * (-h.y * e.x + h.x * e.y)
      = nn ^ 2 * (h.z * e.x - h.x * e.z) := by
    linear_combination (-(h.z * h.x)) * hhe' + (-(h.x * e.z)) * hhn2'
      + (-(h.z * e.x - h.x * e.z)) * hnn2
  have lhs_eq : -(h.x / nn) * (e.z * hn / (nn * es))
      + (-h.y / nn) * ((-h.y * e.x + h.x * e.y) / (nn * es)) * (h.z / hn)
      = (-(h.x * e.z * hn ^ 2) + h.z * (-h.y) * (-h.y * e.x + h.x * e.y))
          / (nn ^ 2 * es * hn) := by
    field_simp
    ring
  rw [lhs_eq, key]
  unfold cross
  field_simp
  ring

theorem col2z (h e : Vec3) (nn hn es : ℝ)
    (hnn : nn ≠ 0) (hhn : hn ≠ 0) (hes : es ≠ 0) :
    ((-h.y * e.x + h.x * e.y) / (nn * es)) * (nn / hn) = (cross h e).z / (hn * es) := by
  unfold cross
  field_simp
  ring

theorem col3x (h : Vec3) (nn hn : ℝ) (hnn : nn ≠ 0) (hhn : hn ≠ 0) :
    (h.x / nn) * (nn / hn) = h.x / hn := by
  field_simp

theorem col3y (h : Vec3) (nn hn : ℝ) (hnn : nn ≠ 0) (hhn : hn ≠ 0) :
    -(-h.y / nn) * (nn / hn) = h.y / hn := by
  field_simp

theorem ev_dot_v (r v : Vec3) : dot (evec r v) v = -(dot r v) / norm3 r := by
  unfold evec vadd sdiv smul3 dot cross
  ring

theorem ev_dot_r (r v : Vec3) :
    dot (evec r v) r = dot (cross r v) (cross r v) / MU_EARTH - dot r r / norm3 r := by
  unfold evec vadd sdiv smul3 dot cross
  ring

theorem ev_dot_self (r v : Vec3) :
    dot (evec r v) (evec r v)
      = dot v v * dot (cross r v) (cross r v) / MU_EARTH ^ 2
        - 2 * dot (cross r v) (cross r v) / (MU_EARTH * norm3 r)
        + dot r r / norm3 r ^ 2 := by
  unfold evec vadd sdiv smul3 dot cross
  ring

theorem ecross_r_self (r v : Vec3) :
    dot (cross (evec r v) r) (cross (evec r v) r)
      = dot r v ^ 2 * dot (cross r v) (cross r v) / MU_EARTH ^ 2 := by
  unfold evec vadd sdiv smul3 dot cross
  ring

theorem asm_r_x (r v : Vec3) :
    dot (evec r v) r * (evec r v).x
        + dot r v * (cross (cross r v) (evec r v)).x / MU_EARTH
      = dot (evec r v) (evec r v) * r.x := by
  unfold evec vadd sdiv smul3 dot cross
  ring

theorem asm_v_x (r v : Vec3) :
    dot (evec r v) v * (evec r v).x
        + (dot v v / MU_EARTH - 1 / norm3 r) * (cross (cross r v) (evec r v)).x
      = dot (evec r v) (evec r v) * v.x := by
  unfold evec vadd sdiv smul3 dot cross
  ring

theorem om_quad (r v : Vec3) :
    ((cross r v).x ^ 2 + (cross r v).y ^ 2) * dot (evec r v) (evec r v)
        - ((cross r v).x * (evec r v).y - (cross r v).y * (evec r v).x) ^ 2
      = (evec r v).z ^ 2 * dot (cross r v) (cross r v) := by
  unfold evec vadd sdiv smul3 dot cross
  ring

theorem bridgeA8 (r v : Vec3) (hrn : norm3 r ≠ 0) :
    MU_EARTH * (dot (evec r v) (evec r v) * norm3 r + dot (evec r v) r)
      = dot (cross r v) (cross r v) * (norm3 r * dot v v / MU_EARTH - 1) := by
  have hMU : MU_EARTH ≠ 0 := by norm_num [MU_EARTH]
  unfold evec vadd sdiv smul3 dot cross
  field_simp
  ring

theorem asm_r_y (r v : Vec3) :
    dot (evec r v) r * (evec r v).y
        + dot r v * (cross (cross r v) (evec r v)).y / MU_EARTH
      = dot (evec r v) (evec r v) * r.y := by
  unfold evec vadd sdiv smul3 dot cross
  ring

theorem asm_v_y (r v : Vec3) :
    dot (evec r v) v * (evec r v).y
        + (dot v v / MU_EARTH - 1 / norm3 r) * (cross (cross r v) (evec r v)).y
      = dot (evec r v) (evec r v) * v.y := by
  unfold evec vadd sdiv smul3 dot cross
  ring

theorem asm_r_z (r v : Vec3) :
    dot (evec r v) r * (evec r v).z
        + dot r v * (cross (cross r v) (evec r v)).z / MU_EARTH
      = dot (evec r v) (evec r v) * r.z := by
  unfold evec vadd sdiv smul3 dot cross
  ring

theorem asm_v_z (r v : Vec3) :
    dot (evec r v) v * (evec r v).z
        + (dot v v / MU_EARTH - 1 / norm3 r) * (cross (cross r v) (evec r v)).z
      = dot (evec r v) (evec r v) * v.z := by
  unfold evec vadd sdiv smul3 dot cross
  ring

theorem CS_sq (a b : Vec3) : dot a b ^ 2 ≤ dot a a * dot b b := by
  nlinarith [dot_nonneg (cross a b), cross_dot_self a b]

theorem div_bounds_of_sq_le {a b : ℝ} (hb : 0 < b) (h : a ^ 2 ≤ b ^ 2) :
    -1 ≤ a / b ∧ a / b ≤ 1 := by
  constructor
  · rw [le_div_iff₀ hb]; nlinarith
  · rw [div_le_one hb]; nlinarith

theorem dot_mk (a b c d q f : ℝ) :
    dot ⟨a, b, c⟩ ⟨d, q, f⟩ = a * d + b * q + c * f := rfl

theorem Vec3.ext3 {a b : Vec3} (hx : a.x = b.x) (hy : a.y = b.y)
    (hz : a.z = b.z) : a = b := by
  obtain ⟨ax, ay, az⟩ := a
  obtain ⟨bx, bq, bz⟩ := b
  dsimp only at hx hy hz
  subst hx; subst hy; subst hz; rfl

theorem StateRV.ext2 {a b : StateRV} (h1 : a.r = b.r) (h2 : a.v = b.v) :
    a = b := by
  obtain ⟨ar, av⟩ := a
  obtain ⟨br, bv⟩ := b
  dsimp only at h1 h2
  subst h1; subst h2; rfl

set_option maxHeartbeats 1000000 in
/-- C2, amended: in the exact-real embedding the round trip
`ClassicalOE.as_rv ∘ StateRV.as_coe` is the identity — exactly, not merely to
1e-8 — on every state whose position is non-zero, whose angular momentum is
not parallel to the z-axis (equivalently the inclination is neither 0 nor π,
strictly more than the claim's "not near 0"), whose eccentricity vector is
non-zero, and which is not exactly parabolic (`2/|r| - |v|²/μ ≠ 0`, needed
because `a = 1/(2/|r| - |v|²/μ)` divides by that quantity).  The
gravitational parameter is the hard-coded module constant `MU_EARTH`; the
code takes no caller-supplied mu. -/
theorem C2_roundtrip_exact (s : StateRV)
    (hr : 0 < dot s.r s.r)
    (hio : (cross s.r s.v).x ≠ 0 ∨ (cross s.r s.v).y ≠ 0)
    (he : norm3 (evec s.r s.v) ≠ 0)
    (hpa : 2 / norm3 s.r - norm3 s.v ^ 2 / MU_EARTH ≠ 0) :
    (StateRV.as_coe s).as_rv = s := by
  obtain ⟨r, v⟩ := s
  simp only [StateRV.as_coe]
  rw [node_eq]
  dsimp only at hr hio he hpa ⊢
  rw [if_pos he]
  set h : Vec3 := cross r v with hh_def
  set e : Vec3 := evec r v with he_def
  set rn : ℝ := norm3 r with hrn_def
  set hn : ℝ := norm3 h with hhn_def
  set nvec : Vec3 := (⟨-h.y, h.x, 0⟩ : Vec3) with hnv_def
  set nn : ℝ := norm3 nvec with hnn_def
  set es : ℝ := norm3 e with hes_def
  -- positivity and square relations (the abbreviations are made opaque so that
  -- decision procedures do not unfold them into square roots)
  have hMU : (0:ℝ) < MU_EARTH := MU_EARTH_pos
  have hMUne : MU_EARTH ≠ 0 := ne_of_gt hMU
  have hrnpos : 0 < rn := by rw [hrn_def]; exact Real.sqrt_pos.2 hr
  have hrn2 : rn ^ 2 = dot r r := by rw [hrn_def]; exact norm3_sq r
  have hhh : 0 < dot h h := by
    unfold dot
    rcases hio with hx | hy
    · nlinarith [mul_self_pos.2 hx, mul_self_nonneg h.y, mul_self_nonneg h.z]
    · nlinarith [mul_self_pos.2 hy, mul_self_nonneg h.x, mul_self_nonneg h.z]
  have hhnpos : 0 < hn := by rw [hhn_def]; exact Real.sqrt_pos.2 hhh
  have hhn2 : hn ^ 2 = dot h h := by rw [hhn_def]; exact norm3_sq h
  have hnvec_dot : dot nvec nvec = h.x ^ 2 + h.y ^ 2 := by
    rw [hnv_def]; unfold dot; ring
  have hnnpos : 0 < nn := by
    rw [hnn_def]
    refine Real.sqrt_pos.2 ?_
    rw [hnvec_dot]
    rcases hio with hx | hy
    · nlinarith [mul_self_pos.2 hx, sq_nonneg h.y]
    · nlinarith [mul_self_pos.2 hy, sq_nonneg h.x]
  have hnn2 : nn ^ 2 = h.x ^ 2 + h.y ^ 2 := by
    rw [hnn_def, norm3_sq nvec, hnvec_dot]
  have hespos : 0 < es := by
    rw [hes_def]
    exact lt_of_le_of_ne (norm3_nonneg e) (Ne.symm (by rw [hes_def] at he; exact he))
  have hes2 : es ^ 2 = dot e e := by rw [hes_def]; exact norm3_sq e
  have hesne : es ≠ 0 := ne_of_gt hespos
  have hrnne : rn ≠ 0 := ne_of_gt hrnpos
  have hhnne : hn ≠ 0 := ne_of_gt hhnpos
  have hnnne : nn ≠ 0 := ne_of_gt hnnpos
  have hhe : dot h e = 0 := by rw [hh_def, he_def]; exact dot_cross_evec r v
  have hndote : dot nvec e = -h.y * e.x + h.x * e.y := by
    rw [hnv_def]; unfold dot; ring
  clear_value h e rn hn nvec nn es
  -- inclination extraction
  have hzb : -1 ≤ h.z / hn ∧ h.z / hn ≤ 1 :=
    div_bounds_of_sq_le hhnpos (by
      rw [hhn2]; unfold dot; nlinarith [sq_nonneg h.x, sq_nonneg h.y])
  have hcosi : Real.cos (Real.arccos (h.z / hn)) = h.z / hn :=
    Real.cos_arccos hzb.1 hzb.2
  have hhn2x : hn ^ 2 = h.x * h.x + h.y * h.y + h.z * h.z := hhn2
  have hsini : Real.sin (Real.arccos (h.z / hn)) = nn / hn := by
    rw [Real.sin_arccos]
    have key : 1 - (h.z / hn) ^ 2 = (nn / hn) ^ 2 := by
      field_simp
      linear_combination hhn2x - hnn2
    rw [key, Real.sqrt_sq (by positivity)]
  -- node extraction
  have hor : -h.y ≠ 0 ∨ h.x ≠ 0 := by
    rcases hio with hx | hy
    · exact Or.inr hx
    · exact Or.inl (neg_ne_zero.2 hy)
  have hsumnn : (-h.y) ^ 2 + h.x ^ 2 = nn ^ 2 := by rw [hnn2]; ring
  have hcosO : Real.cos (pymod (arctan2 h.x (-h.y)) (2 * π)) = -h.y / nn := by
    rw [cos_pymod_two_pi, cos_arctan2 h.x (-h.y) hor, hsumnn, Real.sqrt_sq hnnpos.le]
  have hsinO : Real.sin (pymod (arctan2 h.x (-h.y)) (2 * π)) = h.x / nn := by
    rw [sin_pymod_two_pi, sin_arctan2 h.x (-h.y) hor, hsumnn, Real.sqrt_sq hnnpos.le]
  -- argument of periapsis extraction
  have hwb : -1 ≤ dot nvec e / (nn * es) ∧ dot nvec e / (nn * es) ≤ 1 := by
    have hsq : dot nvec e ^ 2 ≤ (nn * es) ^ 2 := by
      have := CS_sq nvec e
      rw [mul_pow, hes2, hnn_def, norm3_sq nvec]
      exact this
    exact div_bounds_of_sq_le (mul_pos hnnpos hespos) hsq
  have hkeyw : 1 - (dot nvec e / (nn * es)) ^ 2 = (e.z * hn / (nn * es)) ^ 2 := by
    have hq := om_quad r v
    rw [← hh_def, ← he_def] at hq
    rw [hndote]
    field_simp
    linear_combination hq + (dot e e) * hnn2 + nn ^ 2 * hes2 - e.z ^ 2 * hhn2
  have hcosw : Real.cos (if e.z < 0 then
        2 * π - Real.arccos (dot nvec e / (nn * es))
      else Real.arccos (dot nvec e / (nn * es))) = dot nvec e / (nn * es) := by
    by_cases hez : e.z < 0
    · rw [if_pos hez, Real.cos_sub, Real.cos_two_pi, Real.sin_two_pi,
        Real.cos_arccos hwb.1 hwb.2]
      ring
    · rw [if_neg hez, Real.cos_arccos hwb.1 hwb.2]
  have hsinw : Real.sin (if e.z < 0 then
        2 * π - Real.arccos (dot nvec e / (nn * es))
      else Real.arccos (dot nvec e / (nn * es))) = e.z * hn / (nn * es) := by
    by_cases hez : e.z < 0
    · rw [if_pos hez, Real.sin_sub, Real.sin_two_pi, Real.cos_two_pi,
        Real.sin_arccos, hkeyw, Real.sqrt_sq_eq_abs,
        abs_of_nonpos (div_nonpos_iff.2 (Or.inr
          ⟨mul_nonpos_iff.2 (Or.inr ⟨hez.le, hhnpos.le⟩), (mul_pos hnnpos hespos).le⟩))]
      ring
    · rw [if_neg hez, Real.sin_arccos, hkeyw, Real.sqrt_sq_eq_abs,
        abs_of_nonneg (div_nonneg
          (mul_nonneg (not_lt.1 hez) hhnpos.le) (mul_pos hnnpos hespos).le)]
  -- true anomaly extraction
  have hnb : -1 ≤ dot e r / (es * rn) ∧ dot e r / (es * rn) ≤ 1 := by
    have hsq : dot e r ^ 2 ≤ (es * rn) ^ 2 := by
      have := CS_sq e r
      rw [mul_pow, hes2, hrn2]
      exact this
    exact div_bounds_of_sq_le (mul_pos hespos hrnpos) hsq
  have hkeynu : 1 - (dot e r / (es * rn)) ^ 2
      = (dot r v * hn / (MU_EARTH * es * rn)) ^ 2 := by
    have hq := ecross_r_self r v
    rw [← hh_def, ← he_def, eq_div_iff (pow_ne_zero 2 hMUne)] at hq
    have hlag := cross_dot_self e r
    field_simp
    linear_combination (es ^ 2 * rn ^ 2 * MU_EARTH ^ 2 * es ^ 2) * hrn2
      + (es ^ 2 * rn ^ 2 * MU_EARTH ^ 2 * dot r r) * hes2
      + (es ^ 2 * rn ^ 2) * hq
      - (es ^ 2 * rn ^ 2 * MU_EARTH ^ 2) * hlag
      - (es ^ 2 * rn ^ 2 * dot r v ^ 2) * hhn2
  have hcosnu : Real.cos (if dot r v < 0 then
        2 * π - Real.arccos (dot e r / (es * rn))
      else Real.arccos (dot e r / (es * rn))) = dot e r / (es * rn) := by
    by_cases hrv : dot r v < 0
    · rw [if_pos hrv, Real.cos_sub, Real.cos_two_pi, Real.sin_two_pi,
        Real.cos_arccos hnb.1 hnb.2]
      ring
    · rw [if_neg hrv, Real.cos_arccos hnb.1 hnb.2]
  have hsinnu : Real.sin (if dot r v < 0 then
        2 * π - Real.arccos (dot e r / (es * rn))
      else Real.arccos (dot e r / (es * rn)))
      = dot r v * hn / (MU_EARTH * es * rn) := by
    by_cases hrv : dot r v < 0
    · rw [if_pos hrv, Real.sin_sub, Real.sin_two_pi, Real.cos_two_pi,
        Real.sin_arccos, hkeynu, Real.sqrt_sq_eq_abs,
        abs_of_nonpos (div_nonpos_iff.2 (Or.inr
          ⟨mul_nonpos_iff.2 (Or.inr ⟨hrv.le, hhnpos.le⟩),
            (mul_pos (mul_pos hMU hespos) hrnpos).le⟩))]
      ring
    · rw [if_neg hrv, Real.sin_arccos, hkeynu, Real.sqrt_sq_eq_abs,
        abs_of_nonneg (div_nonneg
          (mul_nonneg (not_lt.1 hrv) hhnpos.le)
          (mul_pos (mul_pos hMU hespos) hrnpos).le)]
  -- derived algebraic facts for the assembly
  set vn : ℝ := norm3 v with hvn_def
  have hvn2 : vn ^ 2 = dot v v := by rw [hvn_def]; exact norm3_sq v
  clear_value vn
  have her : dot e r = dot h h / MU_EARTH - rn := by
    have h1 := ev_dot_r r v
    rw [← hh_def, ← he_def, ← hrn_def, ← hrn2] at h1
    rw [h1]
    congr 1
    field_simp
    ring
  have hev : dot e v = -(dot r v) / rn := by
    have h1 := ev_dot_v r v
    rw [← he_def, ← hrn_def] at h1
    exact h1
  have hee1 : dot e e * (MU_EARTH ^ 2 * rn)
      = dot v v * dot h h * rn - 2 * dot h h * MU_EARTH + rn * MU_EARTH ^ 2 := by
    have h1 := ev_dot_self r v
    rw [← hh_def, ← he_def, ← hrn_def] at h1
    rw [h1, ← hrn2]
    field_simp
    ring
  have hp : 1 / (2 / rn - vn ^ 2 / MU_EARTH) * (1 - es ^ 2)
      = dot h h / MU_EARTH := by
    rw [div_mul_eq_mul_div, one_mul, div_eq_div_iff hpa hMUne]
    field_simp
    linear_combination (-(MU_EARTH ^ 2 * rn)) * hes2 - hee1
      + (dot h h * rn) * hvn2
  have hhhne : dot h h ≠ 0 := hhh.ne'
  have hden : 1 + es * (dot e r / (es * rn)) = dot h h / (MU_EARTH * rn) := by
    rw [her]
    field_simp
    ring
  have hP1 : dot h h / MU_EARTH * (dot e r / (es * rn))
        / (1 + es * (dot e r / (es * rn))) = dot e r / es := by
    rw [hden]
    field_simp
    ring
  have hP2 : dot h h / MU_EARTH * (dot r v * hn / (MU_EARTH * es * rn))
        / (1 + es * (dot e r / (es * rn))) = dot r v * hn / (MU_EARTH * es) := by
    rw [hden]
    field_simp
    ring
  have hsqrt : Real.sqrt (MU_EARTH / (dot h h / MU_EARTH)) = MU_EARTH / hn := by
    rw [← hhn2, show MU_EARTH / (hn ^ 2 / MU_EARTH) = (MU_EARTH / hn) ^ 2 by
      field_simp; ring]
    exact Real.sqrt_sq (div_nonneg hMU.le hhnpos.le)
  have hev' : dot e v * rn = -(dot r v) := by rw [hev]; field_simp
  have harx := asm_r_x r v
  have hary := asm_r_y r v
  have harz := asm_r_z r v
  have havx := asm_v_x r v
  have havy := asm_v_y r v
  have havz := asm_v_z r v
  have hbr := bridgeA8 r v (hrn_def ▸ hrnne)
  rw [← hh_def, ← he_def] at harx hary harz
  rw [← hh_def, ← he_def, ← hrn_def] at havx havy havz hbr
  have harx' : dot e r * e.x * MU_EARTH + dot r v * (cross h e).x
      = dot e e * r.x * MU_EARTH := by
    field_simp at harx
    linear_combination harx
  have hary' : dot e r * e.y * MU_EARTH + dot r v * (cross h e).y
      = dot e e * r.y * MU_EARTH := by
    field_simp at hary
    linear_combination hary
  have harz' : dot e r * e.z * MU_EARTH + dot r v * (cross h e).z
      = dot e e * r.z * MU_EARTH := by
    field_simp at harz
    linear_combination harz
  have havx' : dot e v * e.x * MU_EARTH * rn + (dot v v * rn - MU_EARTH) * (cross h e).x
      = dot e e * v.x * MU_EARTH * rn := by
    field_simp at havx
    linear_combination havx
  have havy' : dot e v * e.y * MU_EARTH * rn + (dot v v * rn - MU_EARTH) * (cross h e).y
      = dot e e * v.y * MU_EARTH * rn := by
    field_simp at havy
    linear_combination havy
  have havz' : dot e v * e.z * MU_EARTH * rn + (dot v v * rn - MU_EARTH) * (cross h e).z
      = dot e e * v.z * MU_EARTH * rn := by
    field_simp at havz
    linear_combination havz
  have hbr' : MU_EARTH ^ 2 * (dot e e * rn + dot e r)
      = dot h h * (rn * dot v v - MU_EARTH) := by
    field_simp at hbr
    linear_combination hbr
  simp only [ClassicalOE.as_rv]
  rw [hcosi, hsini, hcosO, hsinO, hcosw, hsinw, hcosnu, hsinnu, hp, hP1, hP2,
    hsqrt, hndote]
  have hVp1 : -(MU_EARTH / hn) * (dot r v * hn / (MU_EARTH * es * rn))
      = dot e v / es := by
    rw [hev]
    field_simp
    ring
  have hVp2 : MU_EARTH / hn * (es + dot e r / (es * rn))
      = (dot v v / MU_EARTH - 1 / rn) * hn / es := by
    field_simp
    linear_combination (es * rn) * hbr' + (es * rn ^ 2 * MU_EARTH ^ 2) * hes2
      + (es * rn * (MU_EARTH - dot v v * rn)) * hhn2
  unfold cross at harx' hary' harz' havx' havy' havz'
  refine StateRV.ext2 (Vec3.ext3 ?_ ?_ ?_) (Vec3.ext3 ?_ ?_ ?_)
  · show (Vec3.dot _ _) = r.x
    rw [dot_mk, col1x h e nn hn es hnn2 hhe hnnne hhnne hesne,
      col2x h e nn hn es hnn2 hhn2 hhe hnnne hhnne hesne]
    unfold cross
    dsimp only
    field_simp
    linear_combination (hn * es ^ 2) * harx' + (-(r.x * hn * es ^ 2 * MU_EARTH)) * hes2
  · show (Vec3.dot _ _) = r.y
    rw [dot_mk, col1y h e nn hn es hnn2 hhe hnnne hhnne hesne,
      col2y h e nn hn es hnn2 hhn2 hhe hnnne hhnne hesne]
    unfold cross
    dsimp only
    field_simp
    linear_combination (hn * es ^ 2) * hary' + (-(r.y * hn * es ^ 2 * MU_EARTH)) * hes2
  · show (Vec3.dot _ _) = r.z
    rw [dot_mk, col1z h e nn hn es hnnne hhnne hesne,
      col2z h e nn hn es hnnne hhnne hesne]
    unfold cross
    dsimp only
    field_simp
    linear_combination (hn * es ^ 2) * harz' + (-(r.z * hn * es ^ 2 * MU_EARTH)) * hes2
  · show (Vec3.dot _ _) = v.x
    rw [dot_mk, col1x h e nn hn es hnn2 hhe hnnne hhnne hesne,
      col2x h e nn hn es hnn2 hhn2 hhe hnnne hhnne hesne, hVp1, hVp2]
    unfold cross
    dsimp only
    field_simp
    linear_combination (hn * es ^ 2) * havx' + (-(hn * es ^ 2 * MU_EARTH * rn * v.x)) * hes2
  · show (Vec3.dot _ _) = v.y
    rw [dot_mk, col1y h e nn hn es hnn2 hhe hnnne hhnne hesne,
      col2y h e nn hn es hnn2 hhn2 hhe hnnne hhnne hesne, hVp1, hVp2]
    unfold cross
    dsimp only
    field_simp
    linear_combination (hn * es ^ 2) * havy' + (-(hn * es ^ 2 * MU_EARTH * rn * v.y)) * hes2
  · show (Vec3.dot _ _) = v.z
    rw [dot_mk, col1z h e nn hn es hnnne hhnne hesne,
      col2z h e nn hn es hnnne hhnne hesne, hVp1, hVp2]
    unfold cross
    dsimp only
    field_simp
    linear_combination (hn * es ^ 2) * havz' + (-(hn * es ^ 2 * MU_EARTH * rn * v.z)) * hes2

theorem c2ce_rn : norm3 ⟨3 * MU_EARTH, 0, 0⟩ = 3 * MU_EARTH := by
  unfold norm3 dot
  rw [show (3 * MU_EARTH) * (3 * MU_EARTH) + 0 * 0 + 0 * 0 = (3 * MU_EARTH) ^ 2 by ring]
  exact Real.sqrt_sq (by norm_num [MU_EARTH])

theorem c2ce_vn : norm3 ⟨0, -1, 0⟩ = 1 := by
  unfold norm3 dot
  rw [show (0:ℝ) * 0 + (-1) * (-1) + 0 * 0 = 1 by ring]
  exact Real.sqrt_one

theorem c2ce_h : cross ⟨3 * MU_EARTH, 0, 0⟩ ⟨0, -1, 0⟩ = ⟨0, 0, -(3 * MU_EARTH)⟩ := by
  unfold cross
  exact Vec3.ext3 (by norm_num) (by norm_num) (by norm_num)

theorem c2ce_hn : norm3 ⟨0, 0, -(3 * MU_EARTH)⟩ = 3 * MU_EARTH := by
  unfold norm3 dot
  rw [show (0:ℝ) * 0 + 0 * 0 + -(3 * MU_EARTH) * -(3 * MU_EARTH) = (3 * MU_EARTH) ^ 2 by ring]
  exact Real.sqrt_sq (by norm_num [MU_EARTH])

theorem c2ce_n : cross ⟨0, 0, 1⟩ ⟨0, 0, -(3 * MU_EARTH)⟩ = ⟨0, 0, 0⟩ := by
  unfold cross
  exact Vec3.ext3 (by norm_num) (by norm_num) (by norm_num)

theorem c2ce_nn : norm3 ⟨0, 0, 0⟩ = 0 := by
  unfold norm3 dot
  rw [show (0:ℝ) * 0 + 0 * 0 + 0 * 0 = 0 by ring]
  exact Real.sqrt_zero

theorem c2ce_ev : evec ⟨3 * MU_EARTH, 0, 0⟩ ⟨0, -1, 0⟩ = ⟨2, 0, 0⟩ := by
  unfold evec
  rw [c2ce_h, c2ce_rn,
    show cross ⟨0, -1, 0⟩ ⟨0, 0, -(3 * MU_EARTH)⟩ = ⟨3 * MU_EARTH, 0, 0⟩ from
      Vec3.ext3 (by unfold cross; norm_num) (by unfold cross; norm_num)
        (by unfold cross; norm_num)]
  unfold vadd sdiv smul3
  refine Vec3.ext3 ?_ ?_ ?_ <;> dsimp only <;> norm_num [MU_EARTH]

theorem c2ce_en : norm3 ⟨2, 0, 0⟩ = 2 := by
  unfold norm3 dot
  rw [show (2:ℝ) * 2 + 0 * 0 + 0 * 0 = 2 ^ 2 by ring]
  exact Real.sqrt_sq (by norm_num)

theorem c2ce_coe : StateRV.as_coe ⟨⟨3 * MU_EARTH, 0, 0⟩, ⟨0, -1, 0⟩⟩
    = ⟨-(3 * MU_EARTH), 2, π, 0, π / 2, 0⟩ := by
  simp only [StateRV.as_coe, c2ce_h, c2ce_rn, c2ce_vn, c2ce_hn, c2ce_n, c2ce_nn,
    c2ce_ev, c2ce_en]
  norm_num [ClassicalOE.mk.injEq, arctan2, pymod, dot, Real.arccos_zero,
    Real.arccos_one, Real.arccos_neg_one, MU_EARTH]

theorem c2ce_rv : ClassicalOE.as_rv ⟨-(3 * MU_EARTH), 2, π, 0, π / 2, 0⟩
    = ⟨⟨0, -(3 * MU_EARTH), 0⟩, ⟨-1, 0, 0⟩⟩ := by
  simp only [ClassicalOE.as_rv, Real.cos_zero, Real.sin_zero, Real.cos_pi,
    Real.sin_pi, Real.cos_pi_div_two, Real.sin_pi_div_two]
  rw [show MU_EARTH / (-(3 * MU_EARTH) * (1 - (2:ℝ) ^ 2)) = (1/3 : ℝ) ^ 2 by
    norm_num [MU_EARTH]]
  rw [Real.sqrt_sq (by norm_num)]
  norm_num [StateRV.mk.injEq, Vec3.mk.injEq, dot, MU_EARTH]

/-- C2, counterexample: the exactly retrograde equatorial state
`r = (3μ, 0, 0)`, `v = (0, -1, 0)` has eccentricity `2` and inclination `π`
— both far from the degeneracies the claim excludes (eccentricity near 0,
inclination near 0) — yet the round trip `as_rv ∘ as_coe` does not return
the state within any tolerance: the node vector `ẑ × h` vanishes, the stored
`raan = 0` and `argp = π/2` are artifacts of `0/0`, and the reconstructed
state is the rotated `r' = (0, -3μ, 0)`, `v' = (-1, 0, 0)`. -/
theorem C2_counterexample :
    (StateRV.as_coe ⟨⟨3 * MU_EARTH, 0, 0⟩, ⟨0, -1, 0⟩⟩).e = 2 ∧
      (StateRV.as_coe ⟨⟨3 * MU_EARTH, 0, 0⟩, ⟨0, -1, 0⟩⟩).i = π ∧
      (StateRV.as_coe ⟨⟨3 * MU_EARTH, 0, 0⟩, ⟨0, -1, 0⟩⟩).as_rv
        = ⟨⟨0, -(3 * MU_EARTH), 0⟩, ⟨-1, 0, 0⟩⟩ ∧
      (StateRV.as_coe ⟨⟨3 * MU_EARTH, 0, 0⟩, ⟨0, -1, 0⟩⟩).as_rv
        ≠ ⟨⟨3 * MU_EARTH, 0, 0⟩, ⟨0, -1, 0⟩⟩ := by
  refine ⟨by rw [c2ce_coe], by rw [c2ce_coe], by rw [c2ce_coe, c2ce_rv], ?_⟩
  rw [c2ce_coe, c2ce_rv]
  simp only [ne_eq, StateRV.mk.injEq, Vec3.mk.injEq]
  norm_num [MU_EARTH]

/-- C2, witness for the amended round-trip theorem: the inclined elliptic
state `r = (1, 0, 0)`, `v = (0, 1, 1)` satisfies all four non-degeneracy
hypotheses, and the round trip returns it exactly. -/
theorem C2_witness :
    (StateRV.as_coe ⟨⟨1, 0, 0⟩, ⟨0, 1, 1⟩⟩).as_rv = ⟨⟨1, 0, 0⟩, ⟨0, 1, 1⟩⟩ := by
  have hn1 : norm3 ⟨1, 0, 0⟩ = 1 := by
    unfold norm3 dot
    rw [show (1:ℝ) * 1 + 0 * 0 + 0 * 0 = 1 by ring]
    exact Real.sqrt_one
  have hcr : cross ⟨1, 0, 0⟩ ⟨0, 1, 1⟩ = ⟨0, -1, 1⟩ :=
    Vec3.ext3 (by unfold cross; norm_num) (by unfold cross; norm_num)
      (by unfold cross; norm_num)
  have hev : evec ⟨1, 0, 0⟩ ⟨0, 1, 1⟩ = ⟨2 / MU_EARTH - 1, 0, 0⟩ := by
    unfold evec
    rw [hcr, hn1, show cross ⟨0, 1, 1⟩ ⟨0, -1, 1⟩ = ⟨2, 0, 0⟩ from
      Vec3.ext3 (by unfold cross; norm_num) (by unfold cross; norm_num)
        (by unfold cross; norm_num)]
    unfold vadd sdiv smul3
    exact Vec3.ext3 (by dsimp only; ring) (by dsimp only; ring) (by dsimp only; ring)
  refine C2_roundtrip_exact ⟨⟨1, 0, 0⟩, ⟨0, 1, 1⟩⟩ ?_ ?_ ?_ ?_
  · show 0 < dot ⟨1, 0, 0⟩ ⟨1, 0, 0⟩
    unfold dot
    norm_num
  · show (cross ⟨1, 0, 0⟩ ⟨0, 1, 1⟩).x ≠ 0 ∨ (cross ⟨1, 0, 0⟩ ⟨0, 1, 1⟩).y ≠ 0
    rw [hcr]
    right
    norm_num
  · show norm3 (evec ⟨1, 0, 0⟩ ⟨0, 1, 1⟩) ≠ 0
    rw [hev]
    unfold norm3 dot
    rw [Real.sqrt_ne_zero']
    norm_num [MU_EARTH]
  · show 2 / norm3 ⟨1, 0, 0⟩ - norm3 ⟨0, 1, 1⟩ ^ 2 / MU_EARTH ≠ 0
    rw [hn1, show norm3 ⟨0, 1, 1⟩ ^ 2 = 2 from by
      unfold norm3
      rw [Real.sq_sqrt (by unfold dot; norm_num)]
      unfold dot
      norm_num]
    norm_num [MU_EARTH]
